import Mathlib

/-!
Shallow embedding of the metadata-key builder and metadata resolver of
`src/jackson-wasm/src/util.rs` (the jackson-js wasm port), together with
theorems settling the specification claims about them.

Modelling conventions:
* JS objects participating in the prototype walk are identified by `Obj := Nat`;
  the host prototype relation `Reflect.getPrototypeOf` is `Model.protoOf`
  (`none` models a `null` prototype).  `Reflect.get(parent, "name")` succeeds
  exactly when `parent` is an object, so the loop guard `parent_name(..).is_ok()`
  is modelled as "the current parent is not null".
* The external store `Reflect.getMetadata` (both arities) is
  `Model.store key target propertyKey?`; a JS `undefined` result marshals to
  Rust `None`.
* Decorator options are `JsVal`: either the JS `undefined` value or an opaque
  record with an identity and an `enabled : Option Bool` field (`none` models
  an absent/non-boolean `enabled` property).
* The resolution context models the three getters used by the source:
  `withContextGroups`, `_internalDecorators` (a JS `Map` from objects to plain
  objects; `Map.get` on a missing key yields `undefined`, and `Reflect.get` on
  that non-object then errs, which the source turns back into `None`), and
  `decoratorsEnabled` (a plain object; `Object.keys` iteration order is the
  association-list order, and a value only counts if `typeof` is boolean,
  modelled by `Option Bool` with `none` for non-boolean values).
* The Rust `while` loop of `find_metadata_by_metadata_key_with_context` is a
  partial computation; it is embedded as a fuel-indexed iteration of the exact
  loop body (`runFind`), where a `none` overall result means the loop has not
  finished within the given fuel.  All downstream functions propagate that
  outer `Option`.  (`.ok().unwrap()` panics on key-validation failure are also
  mapped to the absent overall result; no claim touches that path.)
* Rust `str::starts_with` / `str::contains` on valid UTF-8 agree with
  character-level prefix/substring tests, embedded as `strStartsWith` /
  `strContains` over `List Char`.
-/

namespace JacksonWasm

/-- Identity of a host JS object taking part in the prototype walk. -/
abbrev Obj := Nat

/-- A JS value flowing through the resolver: the `undefined` value, or a
`JsonDecoratorOptions` record with an identity and its `enabled` field
(`none` when the property is absent or not a boolean). -/
inductive JsVal where
  | undefined : JsVal
  | record (id : Nat) (enabled : Option Bool) : JsVal
deriving DecidableEq, Repr

/-- The host capabilities consumed by the resolver: the prototype relation
(`none` = null prototype) and the reflect-metadata store
(`none` = no metadata registered for that key/target/member triple). -/
structure Model where
  protoOf : Obj → Option Obj
  store : String → Obj → Option String → Option JsVal

/-- The getters of `JsonStringifierParserCommonContext` used by the source:
`withContextGroups`, `_internalDecorators` and `decoratorsEnabled`.
The internal-decorator map sends an object to `none` when the JS `Map` has no
object entry for it, and otherwise to the entry's own key/value bindings. -/
structure Context where
  withContextGroups : Option (List String)
  internalDecorators : Option (Obj → Option (List (String × JsVal)))
  decoratorsEnabled : Option (List (String × Option Bool))

/-! ## String helpers (embedding Rust `str::starts_with` / `str::contains`) -/

/-- `listContains hay needle` decides whether `needle` occurs contiguously in
`hay` (Rust `str::contains`, character-level). -/
def listContains (hay needle : List Char) : Bool :=
  needle.isPrefixOf hay ||
    match hay with
    | [] => false
    | _ :: t => listContains t needle

/-- Rust `str::contains` with a string pattern. -/
def strContains (hay needle : String) : Bool :=
  listContains hay.data needle.data

/-- Rust `str::starts_with` with a string pattern. -/
def strStartsWith (s p : String) : Bool :=
  p.data.isPrefixOf s.data

/-! ## KeyBuilder -/

/-- Modelled from the spec: the `DEFAULT_CONTEXT_GROUP` constant lives in the
source module `default_context_group`, which is not among the provided source
files; the spec fixes the well-known default context group, assumed to be the
string `"default"`. -/
def DEFAULT_CONTEXT_GROUP : String := "default"

/-- One character of the JS character class `[\w]`
(ASCII letters, digits, underscore). -/
def isWordChar (c : Char) : Bool :=
  c.isAlphanum || c = '_'

/-- The JS regular-expression test `/^[\w]+$/.test s`. -/
def isValidContextGroup (s : String) : Bool :=
  !s.data.isEmpty && s.data.all isWordChar

/-- The exact error message of `make_metadata_key_with_context`. -/
def errInvalidGroup : String :=
  "Invalid context group name found! The context group name must match \"/^[\\w]+$/\" regular expression, that is a non-empty string which contains any alphanumeric character including the underscore."

/-- The `format!("jackson:{}:{}{}{}{}", ...)` expression of
`make_metadata_key_with_context` (arguments in source order: context group,
prefix value, conditional separator, key, conditional suffix segment). -/
def formatKey (context_group pfx sfx key : String) : String :=
  "jackson:" ++ context_group ++ ":" ++ pfx ++ (if pfx ≠ "" then ":" else "")
    ++ key ++ (if sfx ≠ "" then ":" ++ sfx else "")

/-- The options record passed to `make_metadata_key_with_context`.
`pfx`/`sfx` model the source fields named after the prefix and suffix
qualifiers. -/
structure MakeMetadataKeyWithContextOptions where
  contextGroup : Option String
  pfx : Option String
  sfx : Option String

/-- `make_metadata_key_with_context` (util.rs lines 196-230): validate an
explicitly supplied context group against `/^[\w]+$/`, then format the
namespaced key, defaulting the group to `DEFAULT_CONTEXT_GROUP` and the
qualifiers to the empty string. -/
def make_metadata_key_with_context (key : String)
    (options : MakeMetadataKeyWithContextOptions) : Except String String :=
  match options.contextGroup with
  | some context_group =>
      if isValidContextGroup context_group then
        .ok (formatKey context_group (options.pfx.getD "") (options.sfx.getD "") key)
      else
        .error errInvalidGroup
  | none =>
      .ok (formatKey DEFAULT_CONTEXT_GROUP (options.pfx.getD "") (options.sfx.getD "") key)

/-- The `context_groups.iter().map(|g| make_metadata_key_with_context(..).ok().unwrap()).collect()`
pipeline of `make_metadata_keys_with_context`: one key per group, in order;
an `.unwrap()` panic on a validation failure is the absent overall result. -/
def buildKeysList (key : String) (pfx sfx : Option String) :
    List String → Option (List String)
  | [] => some []
  | context_group :: rest =>
      match (make_metadata_key_with_context key ⟨some context_group, pfx, sfx⟩).toOption with
      | none => none
      | some k => (buildKeysList key pfx sfx rest).map fun ks => k :: ks

/-- `make_metadata_keys_with_context` (util.rs lines 232-260): with a present
`contextGroups` getter, build one key per listed group in order; with an
absent getter, build the single default-group key.  The source unwraps each
builder result (`.ok().unwrap()`), so a validation failure is a panic,
modelled as the absent overall result. -/
def make_metadata_keys_with_context (key : String)
    (contextGroups : Option (List String)) (pfx sfx : Option String) :
    Option (List String) :=
  match contextGroups with
  | some context_groups => buildKeysList key pfx sfx context_groups
  | none =>
      (make_metadata_key_with_context key ⟨none, pfx, sfx⟩).toOption.map
        fun k => [k]

/-! ## MetadataResolver -/

/-- The internal-decorator probe performed by one iteration of the walk loop
(util.rs lines 156-180): nothing happens when a property key is present or
the context exposes no internal map; `Map.get` on a type with no entry yields
a non-object, whose `Reflect.get` errs and leaves the options absent; an
object entry is read with `Reflect.get`, which yields the bound value or the
JS `undefined` value, and either way the result is wrapped in `Some`. -/
def internalLookup (imap : Option (Obj → Option (List (String × JsVal))))
    (hasPropertyKey : Bool) (key : String) (parent : Obj) : Option JsVal :=
  if hasPropertyKey then none
  else
    match imap with
    | none => none
    | some m =>
        match m parent with
        | none => none
        | some entry => some ((entry.lookup key).getD JsVal.undefined)

/-- Fuel-indexed run of the `while` loop of
`find_metadata_by_metadata_key_with_context` (util.rs lines 155-187).
State: the current `json_decorator_options` and the current `parent`
(`none` = the JS `null`, on which `parent_name` errs and the guard fails).
The overall `none` means the loop has not exited within `fuel` iterations.
`Reflect.getPrototypeOf` cannot err on an object, so the `break` branch of
the source is unreachable and has no counterpart here. -/
def runFind (m : Model) (key : String) (hasPropertyKey : Bool)
    (imap : Option (Obj → Option (List (String × JsVal)))) :
    Nat → Option JsVal → Option Obj → Option (Option JsVal)
  | _, some v, _ => some (some v)
  | _, none, none => some none
  | 0, none, some _ => none
  | fuel + 1, none, some parent =>
      runFind m key hasPropertyKey imap fuel
        (internalLookup imap hasPropertyKey key parent) (m.protoOf parent)

/-- `find_metadata_by_metadata_key_with_context` (util.rs lines 124-190):
one raw store lookup (member-scoped when a property key is present), then the
inheritance walk starting at the target itself.  Both in-repo call sites pass
a present context (lines 285 and 308) — the source unwraps it — so the
context parameter is taken directly. -/
def find_metadata_by_metadata_key_with_context (m : Model) (fuel : Nat)
    (metadata_key_with_context : String) (target : Obj)
    (property_key : Option String) (context : Context) :
    Option (Option JsVal) :=
  runFind m metadata_key_with_context property_key.isSome
    context.internalDecorators fuel
    (m.store metadata_key_with_context target property_key) (some target)

/-- The `for context_group in context_groups_with_default` loop of
`find_metadata` (util.rs lines 275-293): build the group's key
(`.ok().unwrap()` panics on validation failure, modelled as the absent
overall result), resolve it, return the first present hit. -/
def find_metadata_go (m : Model) (fuel : Nat) (metadata_key : String)
    (target : Obj) (property_key : Option String) (context : Context) :
    List String → Option (Option JsVal)
  | [] => some none
  | context_group :: rest =>
      match (make_metadata_key_with_context metadata_key
          ⟨some context_group, none, none⟩).toOption with
      | none => none
      | some metadata_key_with_context =>
          match find_metadata_by_metadata_key_with_context m fuel
              metadata_key_with_context target property_key context with
          | none => none
          | some (some v) => some (some v)
          | some none =>
              find_metadata_go m fuel metadata_key target property_key context rest

/-- `find_metadata` (util.rs lines 262-294): the candidate groups are the
context's `withContextGroups` (or the empty list) with
`DEFAULT_CONTEXT_GROUP` pushed at the end, tried in order. -/
def find_metadata (m : Model) (fuel : Nat) (metadata_key : String)
    (target : Obj) (property_key : Option String) (context : Context) :
    Option (Option JsVal) :=
  find_metadata_go m fuel metadata_key target property_key context
    (context.withContextGroups.getD [] ++ [DEFAULT_CONTEXT_GROUP])

/-! ## The enable/disable gate and `get_metadata` -/

/-- The `enabled` getter of `JsonDecoratorOptions`. -/
def enabledOf : JsVal → Option Bool
  | .undefined => none
  | .record _ e => e

/-- The `set_enabled` setter of `JsonDecoratorOptions` (the source only ever
calls it on a located record). -/
def setEnabled : JsVal → Bool → JsVal
  | .undefined, _ => .undefined
  | .record i _, b => .record i (some b)

/-- The table-key match of the gate (util.rs lines 321-331): for an
already-namespaced metadata key, `metadata_key.contains(":" + tableKey)`;
otherwise `metadata_key.starts_with(tableKey)`. -/
def gateKeyMatches (metadata_key tableKey : String) : Bool :=
  if strStartsWith metadata_key "jackson:" then
    strContains metadata_key (":" ++ tableKey)
  else
    strStartsWith metadata_key tableKey

/-- The enabled-table override (util.rs lines 320-341): find the first table
key (in `Object.keys` order) matching the metadata key; if its value is a
boolean, overwrite the located record's `enabled` field with it. -/
def applyEnabledGate (metadata_key : String)
    (tbl : List (String × Option Bool)) (v : JsVal) : JsVal :=
  match tbl.find? fun kv => gateKeyMatches metadata_key kv.fst with
  | some (_, some b) => setEnabled v b
  | _ => v

/-- The whole gate step of `get_metadata`: a no-op when the context exposes no
`decoratorsEnabled` object. -/
def gateStep (metadata_key : String) (context : Context) (v : JsVal) : JsVal :=
  match context.decoratorsEnabled with
  | none => v
  | some tbl => applyEnabledGate metadata_key tbl v

/-- The pre-gate branch of `get_metadata` (util.rs lines 303-312): an
already-namespaced key goes straight to
`find_metadata_by_metadata_key_with_context`, anything else through the
group expansion of `find_metadata`. -/
def preFind (m : Model) (fuel : Nat) (metadata_key : String) (target : Obj)
    (property_key : Option String) (context : Context) :
    Option (Option JsVal) :=
  if strStartsWith metadata_key "jackson:" then
    find_metadata_by_metadata_key_with_context m fuel metadata_key target
      property_key context
  else
    find_metadata m fuel metadata_key target property_key context

/-- `get_metadata` (util.rs lines 296-349): resolve, return the `undefined`
sentinel unchanged, otherwise run the enabled-table override and return the
record only when its (possibly overwritten) `enabled` field is the boolean
true; in every other case return `undefined`. -/
def get_metadata (m : Model) (fuel : Nat) (metadata_key : String)
    (target : Obj) (property_key : Option String) (context : Context) :
    Option JsVal :=
  match preFind m fuel metadata_key target property_key context with
  | none => none
  | some none => some JsVal.undefined
  | some (some decorator_options) =>
      if decorator_options = JsVal.undefined then some JsVal.undefined
      else
        let gated := gateStep metadata_key context decorator_options
        if enabledOf gated = some true then some gated
        else some JsVal.undefined

/-! ## Termination of the inheritance walk -/

/-- The resolution (store lookup plus inheritance walk) of
`find_metadata_by_metadata_key_with_context` exits within some fuel. -/
def walkTerminates (m : Model) (key : String) (target : Obj)
    (prop : Option String) (context : Context) : Prop :=
  ∃ fuel,
    (find_metadata_by_metadata_key_with_context m fuel key target prop
      context).isSome

/-- The prototype chain starting at `parent` reaches the JS `null` within
`n` steps. -/
def reachesNull (m : Model) : Option Obj → Nat → Bool
  | none, _ => true
  | some _, 0 => false
  | some parent, n + 1 => reachesNull m (m.protoOf parent) n

/-- A one-object host graph whose prototype relation is the self-loop
`0 ↦ 0`, with an empty metadata store. -/
def cyclicModel : Model where
  protoOf := fun _ => some 0
  store := fun _ _ _ => none

/-! ## KeyBuilder theorems -/

/-- `formatKey` regrouped into the spec's optional-segment shape. -/
theorem formatKey_segments (cg pfx sfx k : String) :
    formatKey cg pfx sfx k =
      "jackson:" ++ cg ++ ":" ++ (if pfx ≠ "" then pfx ++ ":" else "") ++ k
        ++ (if sfx ≠ "" then ":" ++ sfx else "") := by
  by_cases hp : pfx = "" <;>
    simp [formatKey, hp, String.append_assoc, String.append_empty,
      String.empty_append]

/-- C5: for a valid context group, `buildKey(k, cg, "", "")` is exactly
`"jackson:" ++ cg ++ ":" ++ k`; `buildKey("prop", absent, "pre", "suf")` is
the literal `"jackson:default:pre:prop:suf"`; and in general the optional
prefix/suffix segments appear with their `":"` separators exactly when
non-empty. -/
theorem C5_buildKey_format :
    (∀ k cg : String, isValidContextGroup cg = true →
        make_metadata_key_with_context k ⟨some cg, some "", some ""⟩
          = .ok ("jackson:" ++ cg ++ ":" ++ k))
    ∧ make_metadata_key_with_context "prop" ⟨none, some "pre", some "suf"⟩
        = .ok "jackson:default:pre:prop:suf"
    ∧ (∀ k cg pfx sfx : String, isValidContextGroup cg = true →
        make_metadata_key_with_context k ⟨some cg, some pfx, some sfx⟩
          = .ok ("jackson:" ++ cg ++ ":" ++ (if pfx ≠ "" then pfx ++ ":" else "")
              ++ k ++ (if sfx ≠ "" then ":" ++ sfx else ""))) := by
  refine ⟨?_, rfl, ?_⟩
  · intro k cg h
    simp [make_metadata_key_with_context, h, formatKey_segments,
      String.append_empty]
  · intro k cg pfx sfx h
    simp [make_metadata_key_with_context, h, formatKey_segments]

/-- Closed instance of the C5 theorem. -/
theorem C5_buildKey_format_witness :
    make_metadata_key_with_context "k" ⟨some "g1", some "", some ""⟩
      = .ok "jackson:g1:k" := by
  have h := C5_buildKey_format.1 "k" "g1" (by decide)
  exact h

/-- C6: an explicitly supplied context group failing `/^[\w]+$/` makes the
builder fail with the validation error and no key is produced; `"a-b"`,
`"a b"` and `""` all fail the test; an absent context group is not validated
and the default group is used. -/
theorem C6_invalid_group :
    (∀ (k : String) (p s : Option String) (cg : String),
        isValidContextGroup cg = false →
        make_metadata_key_with_context k ⟨some cg, p, s⟩
          = .error errInvalidGroup)
    ∧ isValidContextGroup "a-b" = false
    ∧ isValidContextGroup "a b" = false
    ∧ isValidContextGroup "" = false
    ∧ (∀ (k : String) (p s : Option String),
        make_metadata_key_with_context k ⟨none, p, s⟩
          = .ok (formatKey DEFAULT_CONTEXT_GROUP (p.getD "") (s.getD "") k)) := by
  refine ⟨?_, by decide, by decide, by decide, fun k p s => rfl⟩
  intro k p s cg h
  simp [make_metadata_key_with_context, h]

/-- Closed instance of the C6 theorem. -/
theorem C6_invalid_group_witness :
    make_metadata_key_with_context "k" ⟨some "a-b", none, none⟩
      = .error errInvalidGroup :=
  C6_invalid_group.1 "k" none none "a-b" (by decide)

/-- C7 counterexample: a present-but-empty `contextGroups` list yields the
empty key sequence, not the single default-group key that the absent case
yields. -/
theorem C7_counterexample_empty_groups :
    make_metadata_keys_with_context "k" (some []) none none = some []
    ∧ make_metadata_keys_with_context "k" (some []) none none
        ≠ some ["jackson:default:k"]
    ∧ make_metadata_keys_with_context "k" none none none
        = some ["jackson:default:k"] := by
  refine ⟨rfl, by decide, rfl⟩

/-- C7 amended: with a present `contextGroups` list of valid groups the
builder returns one key per group in order (so the empty present list yields
the empty sequence); only an absent list yields the single default-group
key. -/
theorem C7_amended_keys :
    (∀ (k : String) (groups : List String) (p s : Option String),
        (∀ g ∈ groups, isValidContextGroup g = true) →
        make_metadata_keys_with_context k (some groups) p s
          = some (groups.map fun g => formatKey g (p.getD "") (s.getD "") k))
    ∧ (∀ (k : String) (p s : Option String),
        make_metadata_keys_with_context k none p s
          = some [formatKey DEFAULT_CONTEXT_GROUP (p.getD "") (s.getD "") k])
    ∧ make_metadata_keys_with_context "k" (some []) none none = some [] := by
  refine ⟨?_, fun k p s => rfl, rfl⟩
  intro k groups p s hval
  induction groups with
  | nil => rfl
  | cons g rest ih =>
      have hg : isValidContextGroup g = true := hval g (by simp)
      have hrest := ih fun x hx => hval x (by simp [hx])
      simp only [make_metadata_keys_with_context] at hrest ⊢
      simp [buildKeysList, make_metadata_key_with_context, hg, hrest,
        Except.toOption]

/-- Closed instance of the C7 amended theorem. -/
theorem C7_amended_keys_witness :
    make_metadata_keys_with_context "k" (some ["g1", "g2"]) none none
      = some ["jackson:g1:k", "jackson:g2:k"] := by
  have h := C7_amended_keys.1 "k" ["g1", "g2"] none none (by decide)
  exact h.trans (by decide)

/-! ## Walk-loop step lemmas -/

/-- The loop exits as soon as the options are present, whatever the fuel. -/
theorem runFind_some (m : Model) (key : String) (hp : Bool)
    (imap : Option (Obj → Option (List (String × JsVal)))) (fuel : Nat)
    (v : JsVal) (p : Option Obj) :
    runFind m key hp imap fuel (some v) p = some (some v) := by
  cases fuel <;> cases p <;> rfl

/-- The loop exits with no result once the parent is the JS null. -/
theorem runFind_null (m : Model) (key : String) (hp : Bool)
    (imap : Option (Obj → Option (List (String × JsVal)))) (fuel : Nat) :
    runFind m key hp imap fuel none none = some none := by
  cases fuel <;> rfl

/-- One iteration of the loop body on a live state. -/
theorem runFind_succ (m : Model) (key : String) (hp : Bool)
    (imap : Option (Obj → Option (List (String × JsVal)))) (fuel : Nat)
    (parent : Obj) :
    runFind m key hp imap (fuel + 1) none (some parent)
      = runFind m key hp imap fuel (internalLookup imap hp key parent)
          (m.protoOf parent) := rfl

/-- C1: over a chain `child -> parent -> grandparent -> null` whose internal
decorator map binds the concrete key only at the grandparent, the type-level
resolution returns the grandparent's value; and a member-level resolution is
exactly the immediate member-scoped store lookup, consulting neither the
internal map nor any ancestor. -/
theorem C1_inheritance_walk
    (m : Model) (context : Context) (fuel : Nat)
    (K : String) (V : JsVal) (child parent grandparent : Obj)
    (imap : Obj → Option (List (String × JsVal)))
    (entry : List (String × JsVal))
    (hp1 : m.protoOf child = some parent)
    (hp2 : m.protoOf parent = some grandparent)
    (hp3 : m.protoOf grandparent = none)
    (hmap : context.internalDecorators = some imap)
    (hm1 : imap child = none)
    (hm2 : imap parent = none)
    (hm3 : imap grandparent = some entry)
    (hentry : entry.lookup K = some V)
    (hstore : m.store K child none = none) :
    find_metadata_by_metadata_key_with_context m (fuel + 3) K child none context
      = some (some V)
    ∧ ∀ memberName : String,
        find_metadata_by_metadata_key_with_context m (fuel + 3) K child
          (some memberName) context
          = some (m.store K child (some memberName)) := by
  constructor
  · show runFind m K (none : Option String).isSome context.internalDecorators
        (fuel + 3) (m.store K child none) (some child) = some (some V)
    rw [hmap, hstore]
    have s1 : runFind m K (none : Option String).isSome (some imap) (fuel + 3)
        none (some child)
        = runFind m K false (some imap) (fuel + 2)
            (internalLookup (some imap) false K child) (m.protoOf child) := rfl
    rw [s1, hp1]
    have l1 : internalLookup (some imap) false K child = none := by
      simp [internalLookup, hm1]
    rw [l1, runFind_succ, hp2]
    have l2 : internalLookup (some imap) false K parent = none := by
      simp [internalLookup, hm2]
    rw [l2, runFind_succ, hp3]
    have l3 : internalLookup (some imap) false K grandparent = some V := by
      simp [internalLookup, hm3, hentry]
    rw [l3]
    exact runFind_some ..
  · intro memberName
    show runFind m K (some memberName : Option String).isSome
        context.internalDecorators (fuel + 3)
        (m.store K child (some memberName)) (some child)
        = some (m.store K child (some memberName))
    cases hsv : m.store K child (some memberName) with
    | some v => exact runFind_some ..
    | none =>
        rw [hmap]
        have s1 : runFind m K (some memberName : Option String).isSome
            (some imap) (fuel + 3) none (some child)
            = runFind m K true (some imap) (fuel + 2)
                (internalLookup (some imap) true K child) (m.protoOf child) := rfl
        rw [s1, hp1]
        have l1 : ∀ o, internalLookup (some imap) true K o = none := by
          intro o; simp [internalLookup]
        rw [l1, runFind_succ, hp2, l1, runFind_succ, hp3, l1, runFind_null]

/-- Closed instance of the C1 theorem: chain `0 -> 1 -> 2 -> null`, internal
map binding `"K"` only at object `2`, empty store. -/
theorem C1_inheritance_walk_witness :
    find_metadata_by_metadata_key_with_context
      ⟨fun o => if o = 0 then some 1 else if o = 1 then some 2 else none,
       fun _ _ _ => none⟩ 3 "K" 0 none
      ⟨none,
       some fun o => if o = 2 then some [("K", JsVal.record 7 (some true))] else none,
       none⟩
      = some (some (JsVal.record 7 (some true)))
    ∧ find_metadata_by_metadata_key_with_context
        ⟨fun o => if o = 0 then some 1 else if o = 1 then some 2 else none,
         fun _ _ _ => none⟩ 3 "K" 0 (some "member")
        ⟨none,
         some fun o => if o = 2 then some [("K", JsVal.record 7 (some true))] else none,
         none⟩
      = some none := by
  have h := C1_inheritance_walk
    ⟨fun o => if o = 0 then some 1 else if o = 1 then some 2 else none,
     fun _ _ _ => none⟩
    ⟨none,
     some fun o => if o = 2 then some [("K", JsVal.record 7 (some true))] else none,
     none⟩
    0 "K" (JsVal.record 7 (some true)) 0 1 2
    (fun o => if o = 2 then some [("K", JsVal.record 7 (some true))] else none)
    [("K", JsVal.record 7 (some true))]
    rfl rfl rfl rfl rfl rfl rfl rfl rfl
  exact ⟨h.1, h.2 "member"⟩

/-- The internal probe is inert when the context exposes no internal map. -/
theorem internalLookup_none (hp : Bool) (key : String) (o : Obj) :
    internalLookup none hp key o = none := by
  simp [internalLookup]

/-- C2: the candidate groups of `find_metadata` are always the context's
active groups with `DEFAULT_CONTEXT_GROUP` appended, tried in that order; in
particular, with only the active group `"custom"` declared and a value
registered only under the default group's concrete key, resolution still
returns that value. -/
theorem C2_default_group_fallback
    (m : Model) (context : Context) (fuel : Nat) (X : String) (V : JsVal)
    (target : Obj)
    (hgroups : context.withContextGroups = some ["custom"])
    (hmap : context.internalDecorators = none)
    (hproto : m.protoOf target = none)
    (hcustom : m.store ("jackson:custom:" ++ X) target none = none)
    (hdefault : m.store ("jackson:default:" ++ X) target none = some V) :
    (∀ (key : String) (t : Obj) (p : Option String),
        find_metadata m fuel key t p context
          = find_metadata_go m fuel key t p context
              (context.withContextGroups.getD [] ++ [DEFAULT_CONTEXT_GROUP]))
    ∧ find_metadata m (fuel + 1) X target none context = some (some V) := by
  refine ⟨fun _ _ _ => rfl, ?_⟩
  have hkey1 : (make_metadata_key_with_context X
      ⟨some "custom", none, none⟩).toOption = some ("jackson:custom:" ++ X) := by
    have hv : isValidContextGroup "custom" = true := by decide
    have hs : ("jackson:" ++ "custom" ++ ":" : String) = "jackson:custom:" := rfl
    simp [make_metadata_key_with_context, hv, formatKey_segments, hs,
      Except.toOption]
  have hkey2 : (make_metadata_key_with_context X
      ⟨some DEFAULT_CONTEXT_GROUP, none, none⟩).toOption
        = some ("jackson:default:" ++ X) := by
    have hv : isValidContextGroup DEFAULT_CONTEXT_GROUP = true := by decide
    have hs : ("jackson:" ++ DEFAULT_CONTEXT_GROUP ++ ":" : String)
        = "jackson:default:" := rfl
    simp [make_metadata_key_with_context, hv, formatKey_segments, hs,
      Except.toOption]
  have hfind1 : find_metadata_by_metadata_key_with_context m (fuel + 1)
      ("jackson:custom:" ++ X) target none context = some none := by
    show runFind m ("jackson:custom:" ++ X) (none : Option String).isSome
        context.internalDecorators (fuel + 1)
        (m.store ("jackson:custom:" ++ X) target none) (some target) = some none
    rw [hcustom, hmap, runFind_succ, internalLookup_none, hproto, runFind_null]
  have hfind2 : find_metadata_by_metadata_key_with_context m (fuel + 1)
      ("jackson:default:" ++ X) target none context = some (some V) := by
    show runFind m ("jackson:default:" ++ X) (none : Option String).isSome
        context.internalDecorators (fuel + 1)
        (m.store ("jackson:default:" ++ X) target none) (some target)
        = some (some V)
    rw [hdefault]
    exact runFind_some ..
  show find_metadata_go m (fuel + 1) X target none context
      (context.withContextGroups.getD [] ++ [DEFAULT_CONTEXT_GROUP])
      = some (some V)
  rw [hgroups]
  show find_metadata_go m (fuel + 1) X target none context
      ("custom" :: [DEFAULT_CONTEXT_GROUP]) = some (some V)
  rw [find_metadata_go, hkey1]
  simp only [hfind1]
  rw [find_metadata_go, hkey2]
  simp only [hfind2]

/-- Closed instance of the C2 theorem. -/
theorem C2_default_group_fallback_witness :
    find_metadata
      ⟨fun _ => none,
       fun k _ p =>
         if k = "jackson:default:X" ∧ p = none then some (JsVal.record 3 (some true))
         else none⟩
      1 "X" 0 none ⟨some ["custom"], none, none⟩
      = some (some (JsVal.record 3 (some true))) := by
  have h := C2_default_group_fallback
    ⟨fun _ => none,
     fun k _ p =>
       if k = "jackson:default:X" ∧ p = none then some (JsVal.record 3 (some true))
       else none⟩
    ⟨some ["custom"], none, none⟩ 0 "X" (JsVal.record 3 (some true)) 0
    rfl rfl rfl (by decide) (by decide)
  exact h.2

/-- The key built for the `"custom"` context group with no qualifiers. -/
theorem makeKeyCustom_toOption (X : String) :
    (make_metadata_key_with_context X ⟨some "custom", none, none⟩).toOption
      = some ("jackson:custom:" ++ X) := by
  have hv : isValidContextGroup "custom" = true := by decide
  have hs : ("jackson:" ++ "custom" ++ ":" : String) = "jackson:custom:" := rfl
  simp [make_metadata_key_with_context, hv, formatKey_segments, hs,
    Except.toOption]

/-- C10: for a plain logical key resolved through the group expansion, when
the internal decorator map has an object entry for the target itself but that
entry binds no property for the first group's concrete key, the property read
yields the JS `undefined` value, which counts as a hit: the walk stops right
there — the parent's matching, enabled decorator under the same concrete key
is never reached, and the remaining context groups are never tried even
though the default group's store holds an enabled decorator — and
`get_metadata` then returns the `undefined` sentinel immediately, bypassing
the enable/disable gate. -/
theorem C10_undefined_sentinel_hit
    (m : Model) (context : Context) (fuel : Nat) (X : String) (t gp : Obj)
    (i j : Nat) (imap : Obj → Option (List (String × JsVal)))
    (entry entry2 : List (String × JsVal))
    (hX : strStartsWith X "jackson:" = false)
    (hgroups : context.withContextGroups = some ["custom"])
    (hmap : context.internalDecorators = some imap)
    (hstore1 : m.store ("jackson:custom:" ++ X) t none = none)
    (hmt : imap t = some entry)
    (hent : entry.lookup ("jackson:custom:" ++ X) = none)
    (hproto : m.protoOf t = some gp)
    (hmgp : imap gp = some entry2)
    (hent2 : entry2.lookup ("jackson:custom:" ++ X)
      = some (JsVal.record i (some true)))
    (hstore2 : m.store ("jackson:default:" ++ X) t none
      = some (JsVal.record j (some true))) :
    find_metadata_by_metadata_key_with_context m (fuel + 1)
        ("jackson:custom:" ++ X) t none context = some (some JsVal.undefined)
    ∧ find_metadata m (fuel + 1) X t none context
        = some (some JsVal.undefined)
    ∧ get_metadata m (fuel + 1) X t none context = some JsVal.undefined := by
  have h1 : find_metadata_by_metadata_key_with_context m (fuel + 1)
      ("jackson:custom:" ++ X) t none context
      = some (some JsVal.undefined) := by
    show runFind m ("jackson:custom:" ++ X) (none : Option String).isSome
        context.internalDecorators (fuel + 1)
        (m.store ("jackson:custom:" ++ X) t none) (some t)
        = some (some JsVal.undefined)
    rw [hstore1, hmap, runFind_succ]
    have hl : internalLookup (some imap) (none : Option String).isSome
        ("jackson:custom:" ++ X) t = some JsVal.undefined := by
      simp [internalLookup, hmt, hent]
    rw [hl]
    exact runFind_some ..
  have h2 : find_metadata m (fuel + 1) X t none context
      = some (some JsVal.undefined) := by
    show find_metadata_go m (fuel + 1) X t none context
        (context.withContextGroups.getD [] ++ [DEFAULT_CONTEXT_GROUP])
        = some (some JsVal.undefined)
    rw [hgroups]
    show find_metadata_go m (fuel + 1) X t none context
        ("custom" :: [DEFAULT_CONTEXT_GROUP]) = some (some JsVal.undefined)
    rw [find_metadata_go, makeKeyCustom_toOption]
    simp only [h1]
  refine ⟨h1, h2, ?_⟩
  simp [get_metadata, preFind, hX, h2]

/-- Closed instance of the C10 theorem: the first (custom-group) walk hits
`undefined` at the target itself; neither the parent's enabled decorator nor
the default group's enabled store entry is ever returned. -/
theorem C10_undefined_sentinel_hit_witness :
    find_metadata
      ⟨fun o => if o = 0 then some 1 else none,
       fun k _ p =>
         if k = "jackson:default:X" ∧ p = none then
           some (JsVal.record 9 (some true))
         else none⟩
      1 "X" 0 none
      ⟨some ["custom"],
       some fun o =>
         if o = 0 then some [("other", JsVal.record 1 (some true))]
         else if o = 1 then
           some [("jackson:custom:X", JsVal.record 2 (some true))]
         else none,
       some [("X", some true)]⟩
      = some (some JsVal.undefined)
    ∧ get_metadata
        ⟨fun o => if o = 0 then some 1 else none,
         fun k _ p =>
           if k = "jackson:default:X" ∧ p = none then
             some (JsVal.record 9 (some true))
           else none⟩
        1 "X" 0 none
        ⟨some ["custom"],
         some fun o =>
           if o = 0 then some [("other", JsVal.record 1 (some true))]
           else if o = 1 then
             some [("jackson:custom:X", JsVal.record 2 (some true))]
           else none,
         some [("X", some true)]⟩
        = some JsVal.undefined := by
  have h := C10_undefined_sentinel_hit
    ⟨fun o => if o = 0 then some 1 else none,
     fun k _ p =>
       if k = "jackson:default:X" ∧ p = none then
         some (JsVal.record 9 (some true))
       else none⟩
    ⟨some ["custom"],
     some fun o =>
       if o = 0 then some [("other", JsVal.record 1 (some true))]
       else if o = 1 then
         some [("jackson:custom:X", JsVal.record 2 (some true))]
       else none,
     some [("X", some true)]⟩
    0 "X" 0 1 2 9
    (fun o =>
      if o = 0 then some [("other", JsVal.record 1 (some true))]
      else if o = 1 then
        some [("jackson:custom:X", JsVal.record 2 (some true))]
      else none)
    [("other", JsVal.record 1 (some true))]
    [("jackson:custom:X", JsVal.record 2 (some true))]
    (by decide) rfl rfl (by decide) rfl (by decide) rfl rfl (by decide)
    (by decide)
  exact ⟨h.2.1, h.2.2⟩

/-- C3: whenever resolution locates an actual decorator record, `get_metadata`
returns it (gated) exactly when its `enabled` field — after the enable/disable
override — is present and true, and returns the absent sentinel in every
other case. -/
theorem C3_enabled_gate_filter
    (m : Model) (fuel : Nat) (key : String) (target : Obj)
    (prop : Option String) (context : Context) (i : Nat) (e : Option Bool)
    (hfound : preFind m fuel key target prop context
      = some (some (JsVal.record i e))) :
    get_metadata m fuel key target prop context
      = if enabledOf (gateStep key context (JsVal.record i e)) = some true
        then some (gateStep key context (JsVal.record i e))
        else some JsVal.undefined := by
  simp [get_metadata, hfound]

/-- Closed instance of the C3 theorem: a decorator with no explicit `enabled`
field, combined with an enabled-table entry mapping the logical key to false,
makes resolution return the absent sentinel even though a decorator object
was located. -/
theorem C3_enabled_gate_filter_witness :
    get_metadata
      ⟨fun _ => none,
       fun k _ p =>
         if k = "jackson:default:X" ∧ p = none then some (JsVal.record 5 none)
         else none⟩
      1 "X" 0 none ⟨none, none, some [("X", some false)]⟩
      = some JsVal.undefined := by
  have h := C3_enabled_gate_filter
    ⟨fun _ => none,
     fun k _ p =>
       if k = "jackson:default:X" ∧ p = none then some (JsVal.record 5 none)
       else none⟩
    1 "X" 0 none ⟨none, none, some [("X", some false)]⟩ 5 none (by decide)
  exact h.trans (by decide)

/-- C4 counterexample: with the namespaced key `"jackson:default:X"` and an
enabled table whose only key is the context-group name `"default"` — which
does not occur `":"`-prefixed inside the logical-key segment `"X"` — the gate
does find a match and does overwrite the `enabled` field, and the whole
resolution filters out a decorator that was explicitly enabled. -/
theorem C4_counterexample_group_segment_match :
    strContains "X" ":default" = false
    ∧ gateKeyMatches "jackson:default:X" "default" = true
    ∧ applyEnabledGate "jackson:default:X" [("default", some false)]
        (JsVal.record 0 (some true)) = JsVal.record 0 (some false)
    ∧ get_metadata
        ⟨fun _ => none,
         fun k _ _ =>
           if k = "jackson:default:X" then some (JsVal.record 0 (some true))
           else none⟩
        1 "jackson:default:X" 0 none
        ⟨none, none, some [("default", some false)]⟩
      = some JsVal.undefined := by
  refine ⟨by decide, by decide, by decide, by decide⟩

/-! List-level substring lemmas for the C4 amendment. -/

theorem isPrefixOf_append_self (l r : List Char) :
    l.isPrefixOf (l ++ r) = true := by
  induction l with
  | nil => simp [List.isPrefixOf]
  | cons a t ih => simp [List.isPrefixOf, ih]

theorem listContains_of_isPrefixOf (hay needle : List Char)
    (h : needle.isPrefixOf hay = true) : listContains hay needle = true := by
  cases hay with
  | nil =>
      cases needle with
      | nil => rfl
      | cons a t => simp [List.isPrefixOf] at h
  | cons a t => simp [listContains, h]

theorem listContains_append_left (a hay needle : List Char)
    (h : listContains hay needle = true) :
    listContains (a ++ hay) needle = true := by
  induction a with
  | nil => simpa using h
  | cons x xs ih => simp [listContains, ih]

/-- C4 amended: for an already-namespaced metadata key the enabled-table match
is a plain substring test of `":" + tableKey` against the entire concrete key,
context-group segment included; since the `"jackson:"` prefix itself ends in
`":"`, a table key equal to the context group always matches, and its boolean
value does overwrite the result's `enabled` field. -/
theorem C4_amended_match_includes_group_segment
    (group k tk : String) (i : Nat) (e : Option Bool) (b : Bool)
    (hns : strStartsWith ("jackson:" ++ group ++ ":" ++ k) "jackson:" = true) :
    gateKeyMatches ("jackson:" ++ group ++ ":" ++ k) tk
      = strContains ("jackson:" ++ group ++ ":" ++ k) (":" ++ tk)
    ∧ gateKeyMatches ("jackson:" ++ group ++ ":" ++ k) group = true
    ∧ applyEnabledGate ("jackson:" ++ group ++ ":" ++ k) [(group, some b)]
        (JsVal.record i e) = JsVal.record i (some b) := by
  have hdata : ("jackson:" ++ group ++ ":" ++ k).data
      = ['j', 'a', 'c', 'k', 's', 'o', 'n']
          ++ (':' :: (group.data ++ ':' :: k.data)) := by
    have h8 : "jackson:".data = ['j', 'a', 'c', 'k', 's', 'o', 'n', ':'] := rfl
    simp [String.data_append, h8]
  have hcont : strContains ("jackson:" ++ group ++ ":" ++ k) (":" ++ group)
      = true := by
    have hneedle : (":" ++ group).data = ':' :: group.data := by
      simp [String.data_append]
    rw [strContains, hdata, hneedle]
    refine listContains_append_left _ _ _ ?_
    refine listContains_of_isPrefixOf _ _ ?_
    show (':' :: group.data).isPrefixOf (':' :: (group.data ++ ':' :: k.data))
      = true
    simpa [List.isPrefixOf] using
      isPrefixOf_append_self group.data (':' :: k.data)
  have hmatch : gateKeyMatches ("jackson:" ++ group ++ ":" ++ k) group
      = true := by
    simp [gateKeyMatches, hns, hcont]
  refine ⟨by simp [gateKeyMatches, hns], hmatch, ?_⟩
  simp [applyEnabledGate, hmatch, setEnabled]

/-- Closed instance of the C4 amended theorem. -/
theorem C4_amended_match_witness :
    applyEnabledGate ("jackson:" ++ "default" ++ ":" ++ "X")
      [("default", some false)] (JsVal.record 0 (some true))
      = JsVal.record 0 (some false) :=
  (C4_amended_match_includes_group_segment "default" "X" "default" 0
    (some true) false (by decide)).2.2

/-- C8: for an already-namespaced logical key, the pre-gate resolution of
`get_metadata` is exactly one direct call of the inheritance-walking
primitive, and the whole of `get_metadata` is insensitive to the context's
active group list — no per-group keys are built. -/
theorem C8_namespaced_short_circuit
    (m : Model) (fuel : Nat) (key : String) (target : Obj)
    (prop : Option String) (context : Context)
    (h : strStartsWith key "jackson:" = true) :
    preFind m fuel key target prop context
      = find_metadata_by_metadata_key_with_context m fuel key target prop
          context
    ∧ ∀ groups2 : Option (List String),
        get_metadata m fuel key target prop
          ⟨groups2, context.internalDecorators, context.decoratorsEnabled⟩
          = get_metadata m fuel key target prop context := by
  constructor
  · simp [preFind, h]
  · intro groups2
    simp only [get_metadata, preFind, h, if_true,
      find_metadata_by_metadata_key_with_context, gateStep]

/-- Closed instance of the C8 theorem. -/
theorem C8_namespaced_short_circuit_witness :
    get_metadata
      ⟨fun _ => none,
       fun k _ _ =>
         if k = "jackson:default:X" then some (JsVal.record 4 (some true))
         else none⟩
      1 "jackson:default:X" 0 none ⟨some ["g1", "g2"], none, none⟩
      = get_metadata
          ⟨fun _ => none,
           fun k _ _ =>
             if k = "jackson:default:X" then some (JsVal.record 4 (some true))
             else none⟩
          1 "jackson:default:X" 0 none ⟨none, none, none⟩ :=
  (C8_namespaced_short_circuit
    ⟨fun _ => none,
     fun k _ _ =>
       if k = "jackson:default:X" then some (JsVal.record 4 (some true))
       else none⟩
    1 "jackson:default:X" 0 none ⟨none, none, none⟩ (by decide)).2
    (some ["g1", "g2"])

/-- The walk on the cyclic one-object graph with no store or map hit never
exits, whatever the fuel. -/
theorem runFind_cyclic_stuck (fuel : Nat) :
    runFind cyclicModel "K" false none fuel none (some 0) = none := by
  induction fuel with
  | zero => rfl
  | succ n ih => exact ih

/-- C9 counterexample: on the cyclic prototype graph `0 ↦ 0` with an empty
store and no internal decorator map, the inheritance walk of
`find_metadata_by_metadata_key_with_context` does not terminate — there is no
maximum-depth or visited-set safeguard. -/
theorem C9_counterexample_cyclic_walk :
    ¬ walkTerminates cyclicModel "K" 0 none ⟨none, none, none⟩ := by
  rintro ⟨fuel, h⟩
  have h' : (runFind cyclicModel "K" false none fuel none (some 0)).isSome
      = true := h
  rw [runFind_cyclic_stuck fuel] at h'
  exact Bool.false_ne_true h'

/-- The loop exits within `n` iterations whenever the prototype chain reaches
the JS null within `n` steps. -/
theorem runFind_isSome_of_reachesNull
    (m : Model) (key : String) (hp : Bool)
    (imap : Option (Obj → Option (List (String × JsVal))))
    (n : Nat) (p : Option Obj) (opts : Option JsVal)
    (h : reachesNull m p n = true) :
    (runFind m key hp imap n opts p).isSome = true := by
  induction n generalizing p opts with
  | zero =>
      cases p with
      | none => cases opts <;> rfl
      | some o => simp [reachesNull] at h
  | succ k ih =>
      cases p with
      | none => cases opts <;> rfl
      | some o =>
          cases opts with
          | some v => rw [runFind_some]; rfl
          | none =>
              rw [runFind_succ]
              exact ih _ _ (by simpa [reachesNull] using h)

/-- C9 amended: the inheritance walk terminates whenever the prototype chain
from the target reaches the JS null within finitely many steps (in particular
on every acyclic host graph); the source relies on that host guarantee — it
has no maximum-depth or visited-set safeguard — and on a cyclic chain with no
hit it loops forever. -/
theorem C9_amended_terminates_on_rooted_chains
    (m : Model) (key : String) (target : Obj) (prop : Option String)
    (context : Context) (n : Nat)
    (h : reachesNull m (some target) n = true) :
    walkTerminates m key target prop context :=
  ⟨n, runFind_isSome_of_reachesNull m key prop.isSome
    context.internalDecorators n (some target)
    (m.store key target prop) h⟩

/-- Closed instance of the C9 amended theorem: the chain `0 -> 1 -> null`
reaches the root in two steps, so the walk terminates. -/
theorem C9_amended_terminates_witness :
    walkTerminates ⟨fun o => if o = 0 then some 1 else none, fun _ _ _ => none⟩
      "K" 0 none ⟨none, none, none⟩ :=
  C9_amended_terminates_on_rooted_chains
    ⟨fun o => if o = 0 then some 1 else none, fun _ _ _ => none⟩
    "K" 0 none ⟨none, none, none⟩ 2 (by decide)

end JacksonWasm
